import Mathlib

/-!
Verification of the timetable-generator core (files `csp2.py` and
`streamlit_app_v4.py` of the repository).  The Python code is shallowly
embedded: dictionaries become association lists (insertion order preserved,
as CPython dicts do), Python sets used only for membership become lists,
machine integers become `Int`, and the stable `sorted` builtin becomes a
structural insertion sort (extensionally equal to any stable sort over the
same key order).  All definitions are translated from `src/csp2.py`; the
`streamlit_app_v4.py` near-duplicate differs in field naming (`group_name`
for `section`), in shuffling freshly built domains, and — materially for
the domain-scan order — in that its solver applies NO per-variable
(qualification, preference) sort: it scans each domain in the order given.
That solver variant is embedded separately as `solve_timetable_app`.
-/

namespace Timetable

/-- Lower-case a string into a character list, modelling Python `s.lower()`
(restricted to `Char.toLower`, which agrees on the ASCII category strings the
program compares). -/
def lower (s : String) : List Char := s.data.map Char.toLower

/-- Prefix test: `isPrefixList n h` is true when `n` is a prefix of `h`. -/
def isPrefixList : List Char → List Char → Bool
  | [], _ => true
  | _ :: _, [] => false
  | a :: as, b :: bs => if a = b then isPrefixList as bs else false

/-- Substring test: `str_in needle hay` models Python `needle in hay`. -/
def str_in (needle : List Char) : List Char → Bool
  | [] => needle.isEmpty
  | c :: rest => isPrefixList needle (c :: rest) || str_in needle rest

/-- Embedding of `compatible_room(course_type, room_type)` from `csp2.py`
lines 59-79.  `none` models Python `None`; `x or ""` is `Option.getD ""`
(also correct on `some ""`, where Python `or` likewise yields `""`). -/
def compatible_room (course_type room_type : Option String) : Bool :=
  let c := lower (course_type.getD "")
  let r := lower (room_type.getD "")
  if str_in "lab".data c && str_in "lab".data r then true
  else if str_in "lec".data c &&
      (str_in "classroom".data r || str_in "hall".data r || str_in "theater".data r) then true
  else if str_in "lab".data c &&
      (str_in "classroom".data r || str_in "hall".data r || str_in "theater".data r) then true
  else if str_in "classroom".data r || str_in "hall".data r then true
  else false

/-- Spec-side reading (§4.1): a category "signals lab" when the free text
contains the substring `lab` (case-insensitively). -/
def signals_lab (s : String) : Bool := str_in "lab".data (lower s)

/-- Spec-side reading (§4.1): a category "signals lecture": the source's
substring test is `lec`. -/
def signals_lecture (s : String) : Bool := str_in "lec".data (lower s)

/-- Spec-side reading (§4.1): a room "signals classroom/hall/theater". -/
def signals_general_room (s : String) : Bool :=
  str_in "classroom".data (lower s) || str_in "hall".data (lower s) ||
    str_in "theater".data (lower s)

/-- Spec-side reading (§4.1 rule 4): a room "signals classroom/hall". -/
def signals_fallback_room (s : String) : Bool :=
  str_in "classroom".data (lower s) || str_in "hall".data (lower s)

/-- The §4.1 five-rule first-match cascade, written from the spec's words
(for the refinement claim about `compatible_room`). -/
def compatible_spec (c r : String) : Bool :=
  if signals_lab c && signals_lab r then true
  else if signals_lecture c && signals_general_room r then true
  else if signals_lab c && signals_general_room r then true
  else if signals_fallback_room r then true
  else false

/-- Course record as stored in the `courses` dict (`preprocess`). -/
structure CourseInfo where
  name : String
  type : String
deriving DecidableEq

/-- Instructor record as stored in the `instructors` dict.  The Python sets
`quals`/`prefs` are used only through membership, so lists suffice. -/
structure InstrInfo where
  name : String
  quals : List String
  prefs : List String
deriving DecidableEq

/-- Room record as stored in the `rooms` dict. -/
structure RoomInfo where
  type : String
  capacity : Int
deriving DecidableEq

/-- A lecture group emitted by the grouping logic of `preprocess`. -/
structure Group where
  group_name : String
  year : String
  students : Int
  courses : List String
deriving DecidableEq

/-- The `LectureVar` class of `csp2.py` (field `section` is a Lean keyword,
rendered `sect`; the derived display `name` field carries no logic). -/
structure LectureVar where
  course : String
  sect : String
  year : String
  students : Int
deriving DecidableEq

/-- A domain entry: the tuple `(t, r_id, instr_id, is_qualified, is_preferred)`
appended in `build_vars_domains`. -/
structure Opt where
  t : String
  r : String
  instr : String
  qual : Bool
  pref : Bool
deriving DecidableEq

/-- First-match association-list lookup, modelling `dict.get` (the dicts the
program builds have unique keys). -/
def lookup {β : Type} (k : String) : List (String × β) → Option β
  | [] => none
  | (k', v) :: rest => if k' = k then some v else lookup k rest

/-- Python dict assignment `m[k] = v`: overwrite in place, else append
(CPython preserves the original insertion position on overwrite). -/
def dict_set {β : Type} (m : List (String × β)) (k : String) (v : β) :
    List (String × β) :=
  match m with
  | [] => [(k, v)]
  | (k', v') :: rest => if k' = k then (k, v) :: rest else (k', v') :: dict_set rest k v

/-- One row of the `Courses` sheet after `safe_str` normalisation:
`CourseID`, `CourseName`, raw `Type` cell. -/
structure CourseRec where
  cid : String
  cname : String
  ctype : String
deriving DecidableEq

/-- Lower-case a string (Python `str.lower`, ASCII fragment). -/
def lowerStr (s : String) : String := ⟨s.data.map Char.toLower⟩

/-- One iteration of the courses loop of `preprocess` (`csp2.py` lines
86-99): skip empty ids; if the id is already stored with type `"lecture"`,
keep it; otherwise (over)write the entry with the lower-cased type. -/
def insertCourse (m : List (String × CourseInfo)) (rec : CourseRec) :
    List (String × CourseInfo) :=
  if rec.cid = "" then m
  else
    match lookup rec.cid m with
    | some ci =>
        if ci.type = "lecture" then m
        else dict_set m rec.cid ⟨rec.cname, lowerStr rec.ctype⟩
    | none => dict_set m rec.cid ⟨rec.cname, lowerStr rec.ctype⟩

/-- The courses-dict construction of `preprocess`. -/
def preprocess_courses (recs : List CourseRec) : List (String × CourseInfo) :=
  recs.foldl insertCourse []

/-- The domain enumeration of `build_vars_domains` (`csp2.py` lines 194-211)
for one variable: timeslot × room × instructor, filtered by compatibility,
capacity and qualification. -/
def domain_for (ctype : String) (cid : String) (students : Int)
    (timeslots : List String) (rooms : List (String × RoomInfo))
    (instructors : List (String × InstrInfo)) : List Opt :=
  timeslots.flatMap fun t =>
    rooms.flatMap fun rp =>
      if compatible_room (some ctype) (some rp.2.type) = true then
        if rp.2.capacity < students then []
        else
          instructors.flatMap fun ip =>
            if cid ∈ ip.2.quals then
              [⟨t, rp.1, ip.1, decide (cid ∈ ip.2.quals), decide (t ∈ ip.2.prefs)⟩]
            else []
      else []

/-- Embedding of `build_vars_domains` (`csp2.py` lines 172-212).  The Python
parallel list `variables` and dict `domains` (keyed by object identity) are
represented jointly as the list of (variable, domain) pairs in creation
order. -/
def build_vars_domains (courses : List (String × CourseInfo))
    (instructors : List (String × InstrInfo))
    (rooms : List (String × RoomInfo))
    (timeslots : List String)
    (lecture_groups : List Group) : List (LectureVar × List Opt) :=
  lecture_groups.flatMap fun g =>
    g.courses.flatMap fun cid =>
      match lookup cid courses with
      | none => []
      | some ci =>
          [(⟨cid, g.group_name, g.year, g.students⟩,
            domain_for ci.type cid g.students timeslots rooms instructors)]

/-- Stable insertion: place `x` before the first `y` with `le x y`.  With a
total transitive `le` this reproduces Python's stable ascending `sorted`. -/
def ins {α : Type} (le : α → α → Bool) (x : α) : List α → List α
  | [] => [x]
  | y :: ys => if le x y then x :: y :: ys else y :: ins le x ys

/-- Stable insertion sort; extensionally Python `sorted(l, key=...)` for the
key order realised by `le`. -/
def pySorted {α : Type} (le : α → α → Bool) : List α → List α
  | [] => []
  | x :: xs => ins le x (pySorted le xs)

/-- Numeric encoding of the Python key tuple `(x[3], x[4])` (booleans with
`False < True`), order-isomorphic to tuple comparison. -/
def pairKey (o : Opt) : Nat := (cond o.qual 2 0) + (cond o.pref 1 0)

/-- Comparison realising `sorted(dom, key=lambda x: (x[3], x[4]),
reverse=True)`: `a` may precede `b` iff key of `b` ≤ key of `a`. -/
def domLE (a b : Opt) : Bool := decide (pairKey b ≤ pairKey a)

/-- The per-variable domain ordering of `solve_timetable` (`csp2.py` line
237). -/
def sortDomain (dom : List Opt) : List Opt := pySorted domLE dom

/-- Comparison realising `sorted(variables, key=lambda v: (-v.students,
len(domains.get(v, []))))` (`csp2.py` line 227): ascending lexicographic on
`(-students, domain length)`. -/
def varLE (a b : LectureVar × List Opt) : Bool :=
  decide (-a.1.students < -b.1.students ∨
    (-a.1.students = -b.1.students ∧ a.2.length ≤ b.2.length))

/-- The one-time variable ordering of `solve_timetable`. -/
def sortVars (vds : List (LectureVar × List Opt)) : List (LectureVar × List Opt) :=
  pySorted varLE vds

/-- The mutable state of `solve_timetable`: the assignment map (insertion
order), the failures list, and the three used-pair sets. -/
structure SolveState where
  assigned : List (LectureVar × Opt)
  failed : List LectureVar
  used_room_ts : List (String × String)
  used_instr_ts : List (String × String)
  used_section_ts : List (String × String)
deriving DecidableEq

/-- An option clears the three hard-constraint checks of the inner loop. -/
def passes (v : LectureVar) (s : SolveState) (o : Opt) : Prop :=
  (o.t, o.r) ∉ s.used_room_ts ∧ (o.t, o.instr) ∉ s.used_instr_ts ∧
    (o.t, v.sect) ∉ s.used_section_ts

instance (v : LectureVar) (s : SolveState) (o : Opt) : Decidable (passes v s o) := by
  unfold passes; infer_instance

/-- The inner option loop (`csp2.py` lines 240-254): first option clearing
all three checks, scanning left to right. -/
def find_option (v : LectureVar) (s : SolveState) : List Opt → Option Opt
  | [] => none
  | o :: rest =>
    if (o.t, o.r) ∈ s.used_room_ts then find_option v s rest
    else if (o.t, o.instr) ∈ s.used_instr_ts then find_option v s rest
    else if (o.t, v.sect) ∈ s.used_section_ts then find_option v s rest
    else some o

/-- Committing an assignment: record it and mark the three pairs used. -/
def commit (s : SolveState) (v : LectureVar) (o : Opt) : SolveState :=
  { s with
    assigned := s.assigned ++ [(v, o)]
    used_room_ts := (o.t, o.r) :: s.used_room_ts
    used_instr_ts := (o.t, o.instr) :: s.used_instr_ts
    used_section_ts := (o.t, v.sect) :: s.used_section_ts }

/-- Processing of one variable in `solve_timetable`: empty domain fails
immediately; otherwise scan the (qual, pref)-descending domain and commit
the first non-clashing option, else fail. -/
def solveStep (s : SolveState) (p : LectureVar × List Opt) : SolveState :=
  if p.2 = [] then { s with failed := s.failed ++ [p.1] }
  else
    match find_option p.1 s (sortDomain p.2) with
    | some o => commit s p.1 o
    | none => { s with failed := s.failed ++ [p.1] }

/-- The empty initial state of a solving pass. -/
def initState : SolveState := ⟨[], [], [], [], []⟩

/-- Embedding of `solve_timetable` (`csp2.py` lines 217-261). -/
def solve_timetable (vds : List (LectureVar × List Opt)) : SolveState :=
  (sortVars vds).foldl solveStep initState

/-- Processing of one variable in `streamlit_app_v4.py`'s `solve_timetable`
(lines 166-185): identical to `solveStep` except that the domain is scanned
in the order given (`for option in dom`, line 173) — there is no
(qualification, preference) sort in that variant. -/
def solveStep_app (s : SolveState) (p : LectureVar × List Opt) : SolveState :=
  if p.2 = [] then { s with failed := s.failed ++ [p.1] }
  else
    match find_option p.1 s p.2 with
    | some o => commit s p.1 o
    | none => { s with failed := s.failed ++ [p.1] }

/-- Embedding of `solve_timetable` from `streamlit_app_v4.py` (lines
161-186): same one-time variable sort (line 164), unsorted domain scan. -/
def solve_timetable_app (vds : List (LectureVar × List Opt)) : SolveState :=
  (sortVars vds).foldl solveStep_app initState

/-- Two committed assignments clash on none of the three mutually exclusive
resources: (timeslot, room), (timeslot, instructor), (timeslot, group key). -/
def noClash (a b : LectureVar × Opt) : Prop :=
  (a.2.t, a.2.r) ≠ (b.2.t, b.2.r) ∧ (a.2.t, a.2.instr) ≠ (b.2.t, b.2.instr) ∧
    (a.2.t, a.1.sect) ≠ (b.2.t, b.1.sect)

/-- Solver-state invariant: every committed assignment has its three resource
pairs recorded in the used-sets, and no two committed assignments clash. -/
def GoodState (s : SolveState) : Prop :=
  (∀ p ∈ s.assigned,
      (p.2.t, p.2.r) ∈ s.used_room_ts ∧ (p.2.t, p.2.instr) ∈ s.used_instr_ts ∧
        (p.2.t, p.1.sect) ∈ s.used_section_ts) ∧
    s.assigned.Pairwise noClash

/-- The variable ordering claimed by the spec's words: descending by student
count, then DESCENDING by domain size (for the refinement check). -/
def specVarOrder (a b : LectureVar × List Opt) : Prop :=
  b.1.students < a.1.students ∨
    (a.1.students = b.1.students ∧ b.2.length ≤ a.2.length)

instance (a b : LectureVar × List Opt) : Decidable (specVarOrder a b) := by
  unfold specVarOrder; infer_instance

/-- Concrete input, §8 scenario: one group (30 students) taking CS101, one
classroom of capacity 40, one qualified instructor, one timeslot. -/
def witCourses : List (String × CourseInfo) := [("CS101", ⟨"Intro", "lecture"⟩)]

/-- Instructor entity for the concrete scenario. -/
def witInstrs : List (String × InstrInfo) := [("I1", ⟨"Dr", ["CS101"], ["T1"]⟩)]

/-- Room entity for the concrete scenario. -/
def witRooms : List (String × RoomInfo) := [("R1", ⟨"classroom", 40⟩)]

/-- Timeslot list for the concrete scenario. -/
def witTimeslots : List String := ["T1"]

/-- Lecture group for the concrete scenario. -/
def witGroups : List Group := [⟨"1_1", "1", 30, ["CS101"]⟩]

/-- The variable built for the concrete scenario. -/
def witVar : LectureVar := ⟨"CS101", "1_1", "1", 30⟩

/-- The option committed in the concrete scenario. -/
def witOpt : Opt := ⟨"T1", "R1", "I1", true, true⟩

/-- The domain built for the concrete scenario. -/
def witDom : List Opt :=
  domain_for "lecture" "CS101" 30 witTimeslots witRooms witInstrs

/-- Counterexample input for the variable-ordering claim: equal student
counts, domain sizes 1 and 2. -/
def cexC4 : List (LectureVar × List Opt) :=
  [(⟨"A", "g1", "1", 10⟩, [⟨"T1", "R1", "I1", true, false⟩]),
   (⟨"B", "g2", "1", 10⟩,
     [⟨"T1", "R1", "I1", true, false⟩, ⟨"T2", "R1", "I1", true, false⟩])]

/-- A domain whose preferred option comes second in creation order. -/
def witDom7 : List Opt := [⟨"T1", "R", "I", true, false⟩, ⟨"T2", "R", "I", true, true⟩]

/-- The preferred option of `witDom7`. -/
def witOpt7 : Opt := ⟨"T2", "R", "I", true, true⟩

/-- The non-preferred option of `witDom7`, listed first in its build
order. -/
def witOpt7np : Opt := ⟨"T1", "R", "I", true, false⟩

/-- A state in which (T1, R1) is already consumed. -/
def witState8 : SolveState := ⟨[], [], [("T1", "R1")], [], []⟩

/-- A one-option domain that clashes with `witState8`. -/
def witDom8 : List Opt := [⟨"T1", "R1", "I1", true, false⟩]

/-- A variable given an empty domain. -/
def witEmptyVar : LectureVar := ⟨"X", "g", "1", 5⟩

/-- Course rows whose first occurrence of `C1` is a lecture. -/
def witRecs1 : List CourseRec := [⟨"C1", "Algebra", "Lecture"⟩]

/-- A later conflicting `C1` row. -/
def witRecs2 : List CourseRec := [⟨"C1", "Algebra Lab", "Lab"⟩]

/-! ## Helper lemmas -/

theorem mem_ins {α : Type} (le : α → α → Bool) (x : α) (l : List α) (a : α) :
    a ∈ ins le x l ↔ a = x ∨ a ∈ l := by
  induction l with
  | nil => simp [ins]
  | cons y ys ih =>
    simp only [ins]
    split
    · simp
    · simp only [List.mem_cons, ih]
      tauto

theorem ins_perm {α : Type} (le : α → α → Bool) (x : α) (l : List α) :
    (ins le x l).Perm (x :: l) := by
  induction l with
  | nil => simp [ins]
  | cons y ys ih =>
    simp only [ins]
    split
    · exact List.Perm.refl _
    · exact (ih.cons y).trans (List.Perm.swap x y ys)

theorem pySorted_perm {α : Type} (le : α → α → Bool) (l : List α) :
    (pySorted le l).Perm l := by
  induction l with
  | nil => exact List.Perm.refl _
  | cons x xs ih => exact (ins_perm le x (pySorted le xs)).trans (ih.cons x)

theorem pairwise_ins {α : Type} {le : α → α → Bool}
    (htot : ∀ a b, le a b = false → le b a = true)
    (htrans : ∀ a b c, le a b = true → le b c = true → le a c = true)
    (x : α) {l : List α} (hl : l.Pairwise fun a b => le a b = true) :
    (ins le x l).Pairwise fun a b => le a b = true := by
  induction l with
  | nil => simp [ins]
  | cons y ys ih =>
    rcases List.pairwise_cons.1 hl with ⟨hy, hys⟩
    simp only [ins]
    by_cases h : le x y = true
    · rw [if_pos h]
      refine List.pairwise_cons.2 ⟨?_, hl⟩
      intro z hz
      rcases List.mem_cons.1 hz with rfl | hz'
      · exact h
      · exact htrans x y z h (hy z hz')
    · rw [if_neg h]
      refine List.pairwise_cons.2 ⟨?_, ih hys⟩
      intro z hz
      rcases (mem_ins le x ys z).1 hz with heq | hz'
      · rw [heq]; exact htot x y (Bool.eq_false_iff.2 h)
      · exact hy z hz'

theorem pySorted_pairwise {α : Type} {le : α → α → Bool}
    (htot : ∀ a b, le a b = false → le b a = true)
    (htrans : ∀ a b c, le a b = true → le b c = true → le a c = true)
    (l : List α) : (pySorted le l).Pairwise fun a b => le a b = true := by
  induction l with
  | nil => simp [pySorted]
  | cons x xs ih => exact pairwise_ins htot htrans x ih

theorem varLE_total (a b : LectureVar × List Opt) :
    varLE a b = false → varLE b a = true := by
  simp only [varLE, decide_eq_false_iff_not, decide_eq_true_eq]
  omega

theorem varLE_trans (a b c : LectureVar × List Opt) :
    varLE a b = true → varLE b c = true → varLE a c = true := by
  simp only [varLE, decide_eq_true_eq]
  omega

theorem domLE_total (a b : Opt) : domLE a b = false → domLE b a = true := by
  simp only [domLE, decide_eq_false_iff_not, decide_eq_true_eq]
  omega

theorem domLE_trans (a b c : Opt) :
    domLE a b = true → domLE b c = true → domLE a c = true := by
  simp only [domLE, decide_eq_true_eq]
  omega

theorem find_option_cons (v : LectureVar) (s : SolveState) (o : Opt) (rest : List Opt) :
    find_option v s (o :: rest) =
      if passes v s o then some o else find_option v s rest := by
  by_cases h1 : (o.t, o.r) ∈ s.used_room_ts <;>
    by_cases h2 : (o.t, o.instr) ∈ s.used_instr_ts <;>
      by_cases h3 : (o.t, v.sect) ∈ s.used_section_ts <;>
        simp [find_option, passes, h1, h2, h3]

theorem find_option_some {v : LectureVar} {s : SolveState} {l : List Opt} {o : Opt}
    (h : find_option v s l = some o) : o ∈ l ∧ passes v s o := by
  induction l with
  | nil => simp [find_option] at h
  | cons p rest ih =>
    rw [find_option_cons] at h
    by_cases hp : passes v s p
    · rw [if_pos hp] at h
      cases h
      exact ⟨List.mem_cons_self _ _, hp⟩
    · rw [if_neg hp] at h
      exact ⟨List.mem_cons_of_mem p (ih h).1, (ih h).2⟩

theorem find_option_none {v : LectureVar} {s : SolveState} {l : List Opt} :
    find_option v s l = none ↔ ∀ o ∈ l, ¬ passes v s o := by
  induction l with
  | nil => simp [find_option]
  | cons p rest ih =>
    rw [find_option_cons]
    by_cases hp : passes v s p
    · simp [if_pos hp, hp]
    · simp [if_neg hp, hp, ih]

theorem find_option_first {v : LectureVar} {s : SolveState} {l : List Opt} {o : Opt}
    (h : find_option v s l = some o) :
    ∃ l1 l2, l = l1 ++ o :: l2 ∧ ∀ p ∈ l1, ¬ passes v s p := by
  induction l with
  | nil => simp [find_option] at h
  | cons p rest ih =>
    rw [find_option_cons] at h
    by_cases hp : passes v s p
    · rw [if_pos hp] at h
      cases h
      exact ⟨[], rest, rfl, by simp⟩
    · rw [if_neg hp] at h
      obtain ⟨l1, l2, heq, hall⟩ := ih h
      refine ⟨p :: l1, l2, by rw [heq, List.cons_append], ?_⟩
      intro q hq
      rcases List.mem_cons.1 hq with heq' | hq'
      · rw [heq']; exact hp
      · exact hall q hq'

theorem foldl_inv {σ β : Type} {f : σ → β → σ} {P : σ → Prop} {Q : β → Prop}
    (step : ∀ s b, Q b → P s → P (f s b)) :
    ∀ (l : List β) (s : σ), (∀ b ∈ l, Q b) → P s → P (l.foldl f s) := by
  intro l
  induction l with
  | nil => intro s _ h; exact h
  | cons b bs ih =>
    intro s hQ hP
    exact ih (f s b) (fun x hx => hQ x (List.mem_cons_of_mem b hx))
      (step s b (hQ b (List.mem_cons_self b bs)) hP)

theorem lookup_mem {β : Type} {k : String} {v : β} :
    ∀ {m : List (String × β)}, lookup k m = some v → (k, v) ∈ m := by
  intro m
  induction m with
  | nil => intro h; simp [lookup] at h
  | cons p rest ih =>
    intro h
    rw [lookup] at h
    split at h
    · cases h
      rename_i heq
      rw [← heq]
      exact List.mem_cons_self p rest
    · exact List.mem_cons_of_mem p (ih h)

theorem mem_lookup {β : Type} {k : String} {v : β} :
    ∀ {m : List (String × β)}, (k, v) ∈ m → (m.map Prod.fst).Nodup →
      lookup k m = some v := by
  intro m
  induction m with
  | nil => intro h; simp at h
  | cons p rest ih =>
    intro h hnd
    rw [List.map_cons, List.nodup_cons] at hnd
    obtain ⟨hnotin, hnd'⟩ := hnd
    rcases List.mem_cons.1 h with heq | hmem
    · rw [← heq, lookup, if_pos rfl]
    · rw [lookup]
      split
      · rename_i heq'
        exact absurd (List.mem_map.2 ⟨(k, v), hmem, rfl⟩) (heq' ▸ hnotin)
      · exact ih hmem hnd'

theorem lookup_dict_set_ne {β : Type} {k k' : String} (v : β) (h : k' ≠ k) :
    ∀ m : List (String × β), lookup k (dict_set m k' v) = lookup k m := by
  intro m
  induction m with
  | nil => simp [dict_set, lookup, if_neg h]
  | cons p rest ih =>
    rw [dict_set]
    split
    · rename_i heq
      rw [lookup, lookup, if_neg h, heq, if_neg h]
    · rw [lookup, lookup, ih]

theorem goodState_step (s : SolveState) (p : LectureVar × List Opt)
    (h : GoodState s) : GoodState (solveStep s p) := by
  unfold solveStep
  split
  · exact h
  · cases hfo : find_option p.1 s (sortDomain p.2) with
    | none => exact h
    | some o =>
      obtain ⟨h1, h2, h3⟩ := (find_option_some hfo).2
      show GoodState (commit s p.1 o)
      constructor
      · intro q hq
        rcases List.mem_append.1 hq with hq' | hq'
        · obtain ⟨g1, g2, g3⟩ := h.1 q hq'
          exact ⟨List.mem_cons_of_mem _ g1, List.mem_cons_of_mem _ g2,
            List.mem_cons_of_mem _ g3⟩
        · rw [List.mem_singleton.1 hq']
          exact ⟨List.mem_cons_self _ _, List.mem_cons_self _ _,
            List.mem_cons_self _ _⟩
      · show (s.assigned ++ [(p.1, o)]).Pairwise noClash
        rw [List.pairwise_append]
        refine ⟨h.2, List.pairwise_singleton _ _, ?_⟩
        intro a ha b hb
        rw [List.mem_singleton.1 hb]
        obtain ⟨g1, g2, g3⟩ := h.1 a ha
        exact ⟨fun he => h1 (he ▸ g1), fun he => h2 (he ▸ g2),
          fun he => h3 (he ▸ g3)⟩

theorem solveStep_classify (s : SolveState) (p : LectureVar × List Opt) :
    ((solveStep s p).assigned.map Prod.fst ++ (solveStep s p).failed).Perm
      ((s.assigned.map Prod.fst ++ s.failed) ++ [p.1]) := by
  unfold solveStep
  split
  · rw [List.append_assoc]
  · cases find_option p.1 s (sortDomain p.2) with
    | some o =>
      show ((s.assigned ++ [(p.1, o)]).map Prod.fst ++ s.failed).Perm _
      rw [List.map_append, List.append_assoc, List.append_assoc]
      exact List.Perm.append_left (s.assigned.map Prod.fst)
        List.perm_append_comm
    | none =>
      rw [List.append_assoc]

theorem solve_classify :
    ∀ (l : List (LectureVar × List Opt)) (s : SolveState),
      ((l.foldl solveStep s).assigned.map Prod.fst ++
        (l.foldl solveStep s).failed).Perm
        ((s.assigned.map Prod.fst ++ s.failed) ++ l.map Prod.fst) := by
  intro l
  induction l with
  | nil => intro s; simp
  | cons p rest ih =>
    intro s
    have h1 := ih (solveStep s p)
    have h2 := (solveStep_classify s p).append_right (rest.map Prod.fst)
    rw [List.foldl_cons]
    refine (h1.trans h2).trans ?_
    rw [List.map_cons, List.append_assoc, List.singleton_append]

theorem failed_mono_step (s : SolveState) (p : LectureVar × List Opt)
    {v : LectureVar} (h : v ∈ s.failed) : v ∈ (solveStep s p).failed := by
  unfold solveStep
  split
  · exact List.mem_append_left _ h
  · cases find_option p.1 s (sortDomain p.2) with
    | some o => exact h
    | none => exact List.mem_append_left _ h

theorem failed_mono :
    ∀ (l : List (LectureVar × List Opt)) (s : SolveState) (v : LectureVar),
      v ∈ s.failed → v ∈ (l.foldl solveStep s).failed := by
  intro l
  induction l with
  | nil => intro s v h; exact h
  | cons p rest ih =>
    intro s v h
    exact ih (solveStep s p) v (failed_mono_step s p h)

theorem empty_dom_failed :
    ∀ (l : List (LectureVar × List Opt)) (s : SolveState)
      (p : LectureVar × List Opt), p ∈ l → p.2 = [] →
      p.1 ∈ (l.foldl solveStep s).failed := by
  intro l
  induction l with
  | nil => intro s p h; simp at h
  | cons q rest ih =>
    intro s p hp hemp
    rcases List.mem_cons.1 hp with heq | hp'
    · rw [List.foldl_cons]
      apply failed_mono
      rw [heq] at hemp
      rw [heq]
      unfold solveStep
      rw [if_pos hemp]
      exact List.mem_append_right _ (List.mem_singleton.2 rfl)
    · exact ih (solveStep s q) p hp' hemp

theorem assigned_sub (vds : List (LectureVar × List Opt)) :
    ∀ p ∈ (solve_timetable vds).assigned,
      ∃ dom, (p.1, dom) ∈ vds ∧ p.2 ∈ dom := by
  unfold solve_timetable
  refine foldl_inv
    (P := fun s => ∀ p ∈ s.assigned, ∃ dom, (p.1, dom) ∈ vds ∧ p.2 ∈ dom)
    (Q := fun b => b ∈ vds) ?_ (sortVars vds) initState
    (fun b hb => (pySorted_perm varLE vds).subset hb) ?_
  · intro s b hb hP
    unfold solveStep
    split
    · exact hP
    · cases hfo : find_option b.1 s (sortDomain b.2) with
      | none => exact hP
      | some o =>
        intro p hp
        rcases List.mem_append.1 hp with hp' | hp'
        · exact hP p hp'
        · rw [List.mem_singleton.1 hp']
          refine ⟨b.2, ?_, ?_⟩
          · simpa using hb
          · exact (pySorted_perm domLE b.2).subset (find_option_some hfo).1
  · intro p hp
    simp [initState] at hp

theorem mem_ite_nil_r {α : Type} {c : Prop} [Decidable c] {l : List α} {a : α} :
    (a ∈ if c then l else []) ↔ c ∧ a ∈ l := by
  split <;> simp_all

theorem mem_ite_nil_l {α : Type} {c : Prop} [Decidable c] {l : List α} {a : α} :
    (a ∈ if c then [] else l) ↔ ¬c ∧ a ∈ l := by
  split <;> simp_all

theorem mem_option_case {γ α : Type} {x : Option γ} {f : γ → List α} {a : α} :
    (a ∈ (match x with | none => ([] : List α) | some y => f y)) ↔
      ∃ y, x = some y ∧ a ∈ f y := by
  cases x <;> simp

theorem mem_domain_for {ctype cid : String} {students : Int}
    {ts : List String} {rooms : List (String × RoomInfo)}
    {instructors : List (String × InstrInfo)} {o : Opt} :
    o ∈ domain_for ctype cid students ts rooms instructors ↔
      ∃ t ∈ ts, ∃ rp ∈ rooms, ∃ ip ∈ instructors,
        compatible_room (some ctype) (some rp.2.type) = true ∧
        ¬ (rp.2.capacity < students) ∧ cid ∈ ip.2.quals ∧
        o = ⟨t, rp.1, ip.1, decide (cid ∈ ip.2.quals),
          decide (t ∈ ip.2.prefs)⟩ := by
  simp only [domain_for, List.mem_flatMap, mem_ite_nil_r, mem_ite_nil_l,
    List.mem_singleton]
  constructor
  · rintro ⟨t, ht, rp, hrp, hcomp, hcap, ip, hip, hq, ho⟩
    exact ⟨t, ht, rp, hrp, ip, hip, hcomp, hcap, hq, ho⟩
  · rintro ⟨t, ht, rp, hrp, ip, hip, hcomp, hcap, hq, ho⟩
    exact ⟨t, ht, rp, hrp, hcomp, hcap, ip, hip, hq, ho⟩

theorem mem_build {courses : List (String × CourseInfo)}
    {instructors : List (String × InstrInfo)}
    {rooms : List (String × RoomInfo)} {timeslots : List String}
    {lecture_groups : List Group} {p : LectureVar × List Opt} :
    p ∈ build_vars_domains courses instructors rooms timeslots lecture_groups ↔
      ∃ g ∈ lecture_groups, ∃ cid ∈ g.courses, ∃ ci,
        lookup cid courses = some ci ∧
        p = (⟨cid, g.group_name, g.year, g.students⟩,
          domain_for ci.type cid g.students timeslots rooms instructors) := by
  simp only [build_vars_domains, List.mem_flatMap]
  constructor
  · rintro ⟨g, hg, cid, hcid, hp⟩
    cases hl : lookup cid courses with
    | none => rw [hl] at hp; simp at hp
    | some ci =>
      rw [hl] at hp
      simp only [List.mem_singleton] at hp
      exact ⟨g, hg, cid, hcid, ci, hl, hp⟩
  · rintro ⟨g, hg, cid, hcid, ci, hl, hp⟩
    refine ⟨g, hg, cid, hcid, ?_⟩
    rw [hl]
    simp [hp]

theorem insertCourse_keeps {m : List (String × CourseInfo)} {cid : String}
    {ci : CourseInfo} (hm : lookup cid m = some ci)
    (hlect : ci.type = "lecture") (r : CourseRec) :
    lookup cid (insertCourse m r) = some ci := by
  unfold insertCourse
  split
  · exact hm
  · by_cases hceq : r.cid = cid
    · simp only [hceq, hm, hlect, if_pos rfl]
      exact hm
    · cases hl : lookup r.cid m with
      | none =>
        simp only [hl]
        rw [lookup_dict_set_ne _ hceq]
        exact hm
      | some ci' =>
        simp only [hl]
        split
        · exact hm
        · rw [lookup_dict_set_ne _ hceq]
          exact hm

/-! ## Claims -/

/-- C1: for every input, in the result of `solve_timetable` no two committed
assignments share a (timeslot, room) pair, a (timeslot, instructor) pair, or
a (timeslot, group key) pair, over every pair of distinct assigned
variables. -/
theorem claim_C1 (vds : List (LectureVar × List Opt)) :
    (solve_timetable vds).assigned.Pairwise noClash := by
  have h : GoodState (solve_timetable vds) := by
    unfold solve_timetable
    exact foldl_inv (Q := fun _ => True)
      (fun s b _ hs => goodState_step s b hs) (sortVars vds) initState
      (fun _ _ => trivial)
      ⟨fun p hp => absurd hp (List.not_mem_nil p), List.Pairwise.nil⟩
  exact h.2

/-- C3: `solve_timetable` classifies every input variable exactly once — the
assigned variables together with the failed list are a permutation of the
input variables — and a variable with an empty domain is recorded as
failed.  (Termination and totality are inherent: `solve_timetable` is a
total function.) -/
theorem claim_C3 (vds : List (LectureVar × List Opt)) :
    ((solve_timetable vds).assigned.map Prod.fst ++
      (solve_timetable vds).failed).Perm (vds.map Prod.fst) ∧
    ∀ p ∈ vds, p.2 = [] → p.1 ∈ (solve_timetable vds).failed := by
  constructor
  · unfold solve_timetable
    refine (solve_classify (sortVars vds) initState).trans ?_
    simpa [initState] using (pySorted_perm varLE vds).map Prod.fst
  · intro p hp hemp
    have hp' : p ∈ sortVars vds := ((pySorted_perm varLE vds).mem_iff).2 hp
    exact empty_dom_failed (sortVars vds) initState p hp' hemp

/-- Witness for C3: a variable with an empty domain ends up failed. -/
theorem claim_C3_witness :
    witEmptyVar ∈ (solve_timetable [(witEmptyVar, [])]).failed :=
  (claim_C3 [(witEmptyVar, [])]).2 (witEmptyVar, [])
    (List.mem_singleton.2 rfl) rfl

/-- C4 (amended): `solve_timetable` sorts the variables once before the
pass, descending by student count as the primary key and ASCENDING by
domain size as the secondary key (smaller domains first); the claim's
"descending by domain size" does not hold. -/
theorem claim_C4 (vds : List (LectureVar × List Opt)) :
    (sortVars vds).Perm vds ∧
    (sortVars vds).Pairwise (fun a b =>
      b.1.students < a.1.students ∨
        (a.1.students = b.1.students ∧ a.2.length ≤ b.2.length)) ∧
    solve_timetable vds = (sortVars vds).foldl solveStep initState := by
  refine ⟨pySorted_perm varLE vds, ?_, rfl⟩
  refine (pySorted_pairwise varLE_total varLE_trans vds).imp ?_
  intro a b h
  simp only [varLE, decide_eq_true_eq] at h
  omega

/-- Counterexample for C4 as stated: on `cexC4` (equal student counts,
domain sizes 1 and 2) the sort output is NOT ordered descending by domain
size as the secondary key. -/
theorem claim_C4_counterexample :
    ¬ (sortVars cexC4).Pairwise specVarOrder := by decide

/-- C5: `compatible_room` (a pure total Boolean function, totality being
inherent in the embedding) coincides with the §4.1 five-rule first-match
cascade over case-insensitively normalised free-text categories ("signals"
being the source's substring tests), and a theater-only room with a course
signalling neither lecture nor lab is incompatible. -/
theorem claim_C5 :
    (∀ c r : String, compatible_room (some c) (some r) = compatible_spec c r) ∧
    compatible_room (some "seminar") (some "theater") = false :=
  ⟨fun _ _ => rfl, by decide⟩

/-- C7 (amended): `csp2.py`'s `solve_timetable` scans each non-empty
domain in (qualification flag, preference flag) descending order — the
scanned list is a permutation of the domain, pairwise descending on the
encoded (qual, pref) key, so preferred options precede non-preferred ones
at equal qualification — and commits the variable to the first option in
that order clearing the three clash checks; `streamlit_app_v4.py`'s
`solve_timetable` applies no such ordering: it commits the first option
clearing the three clash checks in the domain's given (built, shuffled)
order. -/
theorem claim_C7 (dom : List Opt) (v : LectureVar) (s : SolveState) :
    ((sortDomain dom).Perm dom ∧
     (sortDomain dom).Pairwise (fun a b => pairKey b ≤ pairKey a) ∧
     ∀ o, find_option v s (sortDomain dom) = some o →
       solveStep s (v, dom) = commit s v o ∧ passes v s o ∧
       ∃ l1 l2, sortDomain dom = l1 ++ o :: l2 ∧ ∀ q ∈ l1, ¬ passes v s q) ∧
    (∀ o, find_option v s dom = some o →
      solveStep_app s (v, dom) = commit s v o ∧ passes v s o ∧
      ∃ l1 l2, dom = l1 ++ o :: l2 ∧ ∀ q ∈ l1, ¬ passes v s q) := by
  constructor
  · refine ⟨pySorted_perm domLE dom, ?_, ?_⟩
    · refine (pySorted_pairwise domLE_total domLE_trans dom).imp ?_
      intro a b h
      simpa [domLE] using h
    · intro o hfo
      have hne : dom ≠ [] := by
        intro hd
        rw [hd] at hfo
        simp [sortDomain, pySorted, find_option] at hfo
      refine ⟨?_, (find_option_some hfo).2, find_option_first hfo⟩
      unfold solveStep
      dsimp only
      rw [if_neg hne, hfo]
  · intro o hfo
    have hne : dom ≠ [] := by
      intro hd
      rw [hd] at hfo
      simp [find_option] at hfo
    refine ⟨?_, (find_option_some hfo).2, find_option_first hfo⟩
    unfold solveStep_app
    dsimp only
    rw [if_neg hne, hfo]

/-- Counterexample for C7 as stated: on a one-variable input whose domain
lists a non-preferred option before a preferred one, the
`streamlit_app_v4.py` solver (cited by the claim) commits the
non-preferred option even though the preferred option — strictly higher in
the (qual, pref) key order — also clears all three clash checks, so the
scan is not in (qualification, preference) descending order. -/
theorem claim_C7_counterexample :
    (solve_timetable_app [(witVar, witDom7)]).assigned = [(witVar, witOpt7np)] ∧
    witOpt7 ∈ witDom7 ∧ passes witVar initState witOpt7 ∧
    pairKey witOpt7np < pairKey witOpt7 := by
  decide

/-- Witness for C7: on a domain whose preferred option comes second in
build order, the csp2 solver commits the preferred option first while the
streamlit solver commits the non-preferred head of the list. -/
theorem claim_C7_witness :
    (solveStep initState (witVar, witDom7) = commit initState witVar witOpt7 ∧
     passes witVar initState witOpt7 ∧
     ∃ l1 l2, sortDomain witDom7 = l1 ++ witOpt7 :: l2 ∧
       ∀ q ∈ l1, ¬ passes witVar initState q) ∧
    (solveStep_app initState (witVar, witDom7) =
        commit initState witVar witOpt7np ∧
     passes witVar initState witOpt7np ∧
     ∃ l1 l2, witDom7 = l1 ++ witOpt7np :: l2 ∧
       ∀ q ∈ l1, ¬ passes witVar initState q) :=
  ⟨(claim_C7 witDom7 witVar initState).1.2.2 witOpt7 (by decide),
   (claim_C7 witDom7 witVar initState).2 witOpt7np (by decide)⟩

/-- C8: when no option of a non-empty domain clears all three clash checks,
the variable is recorded as failed and the state is otherwise unchanged
(same used-sets, same assignments), so later variables are processed from
exactly the state they would have seen anyway. -/
theorem claim_C8 (s : SolveState) (v : LectureVar) (dom : List Opt)
    (hne : dom ≠ []) (hfo : find_option v s (sortDomain dom) = none) :
    solveStep s (v, dom) = { s with failed := s.failed ++ [v] } ∧
    ∀ o ∈ dom, ¬ passes v s o := by
  constructor
  · unfold solveStep
    dsimp only
    rw [if_neg hne, hfo]
  · intro o ho
    exact find_option_none.1 hfo o (((pySorted_perm domLE dom).mem_iff).2 ho)

/-- Witness for C8: a one-option domain clashing with an occupied
(timeslot, room) pair fails and leaves the used-sets unchanged. -/
theorem claim_C8_witness :
    solveStep witState8 (witVar, witDom8) =
      { witState8 with failed := witState8.failed ++ [witVar] } ∧
    ∀ o ∈ witDom8, ¬ passes witVar witState8 o :=
  claim_C8 witState8 witVar witDom8 (by decide) (by decide)

/-- C9: once the course map stores category "lecture" for an id, no later
course record with that id changes the stored name or category
(first-write-wins-for-lecture). -/
theorem claim_C9 (recs1 recs2 : List CourseRec) (cid : String)
    (ci : CourseInfo) (h1 : lookup cid (preprocess_courses recs1) = some ci)
    (h2 : ci.type = "lecture") :
    lookup cid (preprocess_courses (recs1 ++ recs2)) = some ci := by
  have key : ∀ (recs : List CourseRec) (m : List (String × CourseInfo)),
      lookup cid m = some ci →
      lookup cid (recs.foldl insertCourse m) = some ci := by
    intro recs
    induction recs with
    | nil => intro m hm; exact hm
    | cons r rest ih =>
      intro m hm
      rw [List.foldl_cons]
      exact ih (insertCourse m r) (insertCourse_keeps hm h2 r)
  rw [preprocess_courses, List.foldl_append]
  exact key recs2 _ h1

/-- Witness for C9: a later conflicting `Lab` row for `C1` leaves the
stored lecture entry intact. -/
theorem claim_C9_witness :
    lookup "C1" (preprocess_courses (witRecs1 ++ witRecs2)) =
      some ⟨"Algebra", "lecture"⟩ :=
  claim_C9 witRecs1 witRecs2 "C1" ⟨"Algebra", "lecture"⟩ (by decide) rfl

/-- C10: `compatible_room` is total on `None` (the embedding is a total
function; `None` is treated as the empty string): with a `None` room it is
`false` for every course category, and with a `None` course it is `true`
exactly when the room signals classroom or hall. -/
theorem claim_C10 :
    (∀ c : Option String, compatible_room c none = false) ∧
    (∀ r : String, compatible_room none (some r) = signals_fallback_room r) := by
  have hlab : str_in "lab".data (lower "") = false := by decide
  have hlec : str_in "lec".data (lower "") = false := by decide
  have hcls : str_in "classroom".data (lower "") = false := by decide
  have hhall : str_in "hall".data (lower "") = false := by decide
  have hth : str_in "theater".data (lower "") = false := by decide
  constructor
  · intro c
    simp [compatible_room, hlab, hcls, hhall, hth]
  · intro r
    simp only [compatible_room, signals_fallback_room, Option.getD]
    simp [hlab, hlec]

/-- C2: every assignment committed by `solve_timetable` on the output of
`build_vars_domains` respects capacity (room capacity ≥ student count),
qualification (course id in the instructor's qualified set) and room/course
category compatibility per §4.1.  The `Nodup` hypotheses state that the
room and instructor maps are dictionaries (unique keys), as `preprocess`
builds them. -/
theorem claim_C2 (courses : List (String × CourseInfo))
    (instructors : List (String × InstrInfo)) (rooms : List (String × RoomInfo))
    (timeslots : List String) (lecture_groups : List Group)
    (hr : (rooms.map Prod.fst).Nodup) (hi : (instructors.map Prod.fst).Nodup) :
    ∀ p ∈ (solve_timetable (build_vars_domains courses instructors rooms
        timeslots lecture_groups)).assigned,
      ∃ ci ri ii,
        lookup p.1.course courses = some ci ∧
        lookup p.2.r rooms = some ri ∧
        lookup p.2.instr instructors = some ii ∧
        p.1.students ≤ ri.capacity ∧
        p.1.course ∈ ii.quals ∧
        compatible_room (some ci.type) (some ri.type) = true := by
  intro p hp
  obtain ⟨dom, hin, ho⟩ := assigned_sub _ p hp
  rw [mem_build] at hin
  obtain ⟨g, hg, cid, hcid, ci, hci, hpair⟩ := hin
  have hv : p.1 = ⟨cid, g.group_name, g.year, g.students⟩ :=
    congrArg Prod.fst hpair
  have hd : dom = domain_for ci.type cid g.students timeslots rooms instructors :=
    congrArg Prod.snd hpair
  rw [hd, mem_domain_for] at ho
  obtain ⟨t, ht, rp, hrp, ip, hip, hcomp, hcap, hq, hoeq⟩ := ho
  have hlr : lookup rp.1 rooms = some rp.2 :=
    mem_lookup (by rw [Prod.mk.eta]; exact hrp) hr
  have hli : lookup ip.1 instructors = some ip.2 :=
    mem_lookup (by rw [Prod.mk.eta]; exact hip) hi
  refine ⟨ci, rp.2, ip.2, ?_, ?_, ?_, ?_, ?_, hcomp⟩
  · rw [hv]; exact hci
  · rw [hoeq]; exact hlr
  · rw [hoeq]; exact hli
  · rw [hv]; exact Int.not_lt.1 hcap
  · rw [hv]; exact hq

/-- Witness for C2: in the §8 scenario the single committed assignment
satisfies capacity, qualification and compatibility. -/
theorem claim_C2_witness :
    ∃ ci ri ii,
      lookup witVar.course witCourses = some ci ∧
      lookup witOpt.r witRooms = some ri ∧
      lookup witOpt.instr witInstrs = some ii ∧
      witVar.students ≤ ri.capacity ∧
      witVar.course ∈ ii.quals ∧
      compatible_room (some ci.type) (some ri.type) = true :=
  claim_C2 witCourses witInstrs witRooms witTimeslots witGroups
    (by decide) (by decide) (witVar, witOpt) (by decide)

/-- C6: for every variable built by `build_vars_domains`, an option with
timeslot `t`, room `r`, instructor `i` is in its domain iff the room is
category-compatible with the course per §4.1, the room capacity is at
least the group's student count, and the instructor is qualified for the
course; the option's preference flag records membership of `t` in the
instructor's preferred set (and the qualification flag is `true`), neither
flag further constraining membership. -/
theorem claim_C6 (courses : List (String × CourseInfo))
    (instructors : List (String × InstrInfo)) (rooms : List (String × RoomInfo))
    (timeslots : List String) (lecture_groups : List Group)
    (hr : (rooms.map Prod.fst).Nodup) (hi : (instructors.map Prod.fst).Nodup)
    (v : LectureVar) (dom : List Opt)
    (hmem : (v, dom) ∈ build_vars_domains courses instructors rooms timeslots
      lecture_groups) :
    ∃ ci, lookup v.course courses = some ci ∧
      ∀ t r i qf pf, ((⟨t, r, i, qf, pf⟩ : Opt) ∈ dom ↔
        (t ∈ timeslots ∧
          (∃ ri, lookup r rooms = some ri ∧
            compatible_room (some ci.type) (some ri.type) = true ∧
            v.students ≤ ri.capacity) ∧
          (∃ ii, lookup i instructors = some ii ∧ v.course ∈ ii.quals ∧
            qf = true ∧ pf = decide (t ∈ ii.prefs)))) := by
  rw [mem_build] at hmem
  obtain ⟨g, hg, cid, hcid, ci, hci, hpair⟩ := hmem
  have hv : v = ⟨cid, g.group_name, g.year, g.students⟩ :=
    congrArg Prod.fst hpair
  have hd : dom = domain_for ci.type cid g.students timeslots rooms instructors :=
    congrArg Prod.snd hpair
  subst hd
  refine ⟨ci, by rw [hv]; exact hci, ?_⟩
  intro t r i qf pf
  rw [mem_domain_for]
  constructor
  · rintro ⟨t', ht', rp, hrp, ip, hip, hcomp, hcap, hq, hoeq⟩
    simp only [Opt.mk.injEq] at hoeq
    obtain ⟨het, her, hei, heq, hep⟩ := hoeq
    refine ⟨het ▸ ht', ⟨rp.2, ?_, hcomp, ?_⟩, ⟨ip.2, ?_, ?_, ?_, ?_⟩⟩
    · rw [her]; exact mem_lookup (by rw [Prod.mk.eta]; exact hrp) hr
    · rw [hv]; exact Int.not_lt.1 hcap
    · rw [hei]; exact mem_lookup (by rw [Prod.mk.eta]; exact hip) hi
    · rw [hv]; exact hq
    · rw [heq]; exact decide_eq_true hq
    · rw [hep, het]
  · rintro ⟨ht, ⟨ri, hri, hcomp, hcap⟩, ⟨ii, hii, hq, hqf, hpf⟩⟩
    have hq' : cid ∈ ii.quals := by rw [hv] at hq; exact hq
    refine ⟨t, ht, (r, ri), lookup_mem hri, (i, ii), lookup_mem hii,
      hcomp, ?_, hq', ?_⟩
    · rw [hv] at hcap; exact Int.not_lt.2 hcap
    · simp only [Opt.mk.injEq]
      refine ⟨by trivial, by trivial, by trivial, ?_, hpf⟩
      rw [hqf]
      exact (decide_eq_true hq').symm

/-- Witness for C6: the domain membership characterisation instantiated at
the §8 scenario. -/
theorem claim_C6_witness :
    ∃ ci, lookup witVar.course witCourses = some ci ∧
      ∀ t r i qf pf, ((⟨t, r, i, qf, pf⟩ : Opt) ∈ witDom ↔
        (t ∈ witTimeslots ∧
          (∃ ri, lookup r witRooms = some ri ∧
            compatible_room (some ci.type) (some ri.type) = true ∧
            witVar.students ≤ ri.capacity) ∧
          (∃ ii, lookup i witInstrs = some ii ∧ witVar.course ∈ ii.quals ∧
            qf = true ∧ pf = decide (t ∈ ii.prefs)))) :=
  claim_C6 witCourses witInstrs witRooms witTimeslots witGroups
    (by decide) (by decide) witVar witDom (by decide)

end Timetable
